import Mathlib

/-!
Verification of the TWED (Time-Warped Edit Distance) repository.

The repository has three engines:
* `TWED` (src/timeWarpedEditDistance_TWED.py): naive full-matrix engine;
* `memTWED` (src/TWED/memoryEfficient_TWED.py): rolling two-row buffer engine;
* `multiTWED` (src/TWED/multiInput_TWED.py): batched rolling-buffer engine.

Real numbers of the source (numpy float64 with `np.inf`) are modelled as
`WithTop ℚ`: `⊤` stands for `np.inf`, finite values are rationals.
Matrices are modelled as total functions `Nat → Nat → WithTop ℚ` together
with explicit bounds; every scalar read or write of the source carries the
bound check numpy performs, and an out-of-bounds access surfaces as
`TWEDErr.indexError`.  Python's `assert` statements surface as the
corresponding error constructors, and reading the loop variable `mi` after a
loop that never ran (Python's `UnboundLocalError`) surfaces as
`TWEDErr.unboundLocal`.
-/

/-- Values of the DP matrices: rationals extended with `⊤` for `np.inf`. -/
abbrev Val := WithTop ℚ

/-- Failure modes of the embedded engines. -/
inductive TWEDErr where
  /-- `assert _nu >= 0` failed. -/
  | invalidParam
  /-- strict-mode `assert self.n == self.m` failed (memTWED). -/
  | lengthMismatch
  /-- `assert len(t2.shape) == 2` failed (multiTWED). -/
  | shapeError
  /-- an out-of-bounds numpy element access. -/
  | indexError
  /-- a loop variable was read although the loop never ran. -/
  | unboundLocal
deriving DecidableEq, Repr

instance {ε α : Type} [DecidableEq ε] [DecidableEq α] : DecidableEq (Except ε α) :=
  fun a b =>
    match a, b with
    | .ok x, .ok y =>
        if h : x = y then isTrue (by rw [h]) else
          isFalse (fun hh => h (by cases hh; rfl))
    | .error x, .error y =>
        if h : x = y then isTrue (by rw [h]) else
          isFalse (fun hh => h (by cases hh; rfl))
    | .ok _, .error _ => isFalse (fun hh => by cases hh)
    | .error _, .ok _ => isFalse (fun hh => by cases hh)

/-- A two-dimensional matrix of values, as a total function; the intended
height/width travel separately and are enforced at each access. -/
abbrev Mat := Nat → Nat → Val

/-- Pointwise functional update of a matrix at one cell. -/
def mupd (M : Mat) (i j : Nat) (v : Val) : Mat :=
  fun a b => if a = i ∧ b = j then v else M a b

/-- Scalar read `matrix[i][j]` of an `h × w` numpy array: out of bounds raises. -/
def mread (h w : Nat) (M : Mat) (i j : Nat) : Except TWEDErr Val :=
  if i < h ∧ j < w then .ok (M i j) else .error .indexError

/-- Scalar write `matrix[i][j] = v` of an `h × w` numpy array: out of bounds raises. -/
def mwrite (h w : Nat) (M : Mat) (i j : Nat) (v : Val) : Except TWEDErr Mat :=
  if i < h ∧ j < w then .ok (mupd M i j v) else .error .indexError

/-- Timestamp sequence `np.arange(1, n + 1, 1)`: entry `k` is `k + 1`. -/
def arangeT (k : Nat) : ℚ := (k : ℚ) + 1

/-! ### Naive full-matrix engine (`TWED`, src/timeWarpedEditDistance_TWED.py) -/

/-- `TWED.__init__`: checks `assert _nu >= 0` and records `n = len(t1)`,
`m = len(t2)`. -/
def TWED_init (t1 t2 : List ℚ) (lam nu : ℚ) : Except TWEDErr (Nat × Nat) :=
  if 0 ≤ nu then .ok (t1.length, t2.length) else .error .invalidParam

/-- The loop of `TWED._init_matrix`: `for i in range(len(matrix)):
matrix[i][0] = np.inf; matrix[0][i] = np.inf`, iterated from index `i`,
`cnt` iterations remaining.  The second write is out of bounds when `i ≥ m`. -/
def TWED_initLoop (n m : Nat) (i cnt : Nat) (M : Mat) : Except TWEDErr Mat :=
  match cnt with
  | 0 => .ok M
  | cnt' + 1 => do
      let M1 ← mwrite n m M i 0 ⊤
      let M2 ← mwrite n m M1 0 i ⊤
      TWED_initLoop n m (i + 1) cnt' M2

/-- `TWED._init_matrix(n, m)`: `np.zeros((n, m))`, the boundary loop, then
`matrix[0][0] = 0`. -/
def TWED_init_matrix (n m : Nat) : Except TWEDErr Mat := do
  let M ← TWED_initLoop n m 0 n (fun _ _ => 0)
  mwrite n m M 0 0 0

/-- The inner-loop body of `TWED.calculateCosts` at indices `(i, j)`:
computes `_deleteA`, `_deleteB`, `_match` and stores their minimum in
`matrix[i][j]`.  `t1_time[k] = arangeT k`, `t2_time[k] = arangeT k`. -/
def TWED_body (t1 t2 : List ℚ) (nu lam : ℚ) (n m : Nat) (M : Mat) (i j : Nat) :
    Except TWEDErr Mat := do
  let a1 ← mread n m M (i - 1) j
  let dA := a1 + ↑|t1.getD (i - 1) 0 - t1.getD i 0|
               + ↑(nu * (arangeT i - arangeT (i - 1))) + ↑lam
  let a2 ← mread n m M i (j - 1)
  let dB := a2 + ↑|t2.getD (j - 1) 0 - t2.getD j 0|
               + ↑(nu * (arangeT j - arangeT (j - 1))) + ↑lam
  let a3 ← mread n m M (i - 1) (j - 1)
  let dM := a3 + ↑|t1.getD i 0 - t2.getD j 0|
               + ↑|t1.getD (i - 1) 0 - t2.getD (j - 1) 0|
               + ↑(nu * (|arangeT i - arangeT j| + |arangeT (i - 1) - arangeT (j - 1)|))
  mwrite n m M i j (min dA (min dB dM))

/-- Inner loop `for j in range(1, m)` of `TWED.calculateCosts`, from column
`j` with `cnt` iterations remaining. -/
def TWED_inner (t1 t2 : List ℚ) (nu lam : ℚ) (n m : Nat) (i : Nat) (M : Mat)
    (j cnt : Nat) : Except TWEDErr Mat :=
  match cnt with
  | 0 => .ok M
  | cnt' + 1 => do
      let M1 ← TWED_body t1 t2 nu lam n m M i j
      TWED_inner t1 t2 nu lam n m i M1 (j + 1) cnt'

/-- Outer loop `for i in range(1, n)` of `TWED.calculateCosts`, from row `i`
with `cnt` iterations remaining. -/
def TWED_outer (t1 t2 : List ℚ) (nu lam : ℚ) (n m : Nat) (M : Mat)
    (i cnt : Nat) : Except TWEDErr Mat :=
  match cnt with
  | 0 => .ok M
  | cnt' + 1 => do
      let M1 ← TWED_inner t1 t2 nu lam n m i M 1 (m - 1)
      TWED_outer t1 t2 nu lam n m M1 (i + 1) cnt'

/-- `TWED.calculateCosts`: initialize the matrix, run the sweep, return
`matrix[n-1][m-1]`. -/
def TWED_calculateCosts (t1 t2 : List ℚ) (nu lam : ℚ) (n m : Nat) :
    Except TWEDErr Val := do
  let M0 ← TWED_init_matrix n m
  let M ← TWED_outer t1 t2 nu lam n m M0 1 (n - 1)
  mread n m M (n - 1) (m - 1)

/-- Construction followed by `calculateCosts` for the naive engine. -/
def TWED_run (t1 t2 : List ℚ) (lam nu : ℚ) : Except TWEDErr Val := do
  let nm ← TWED_init t1 t2 lam nu
  TWED_calculateCosts t1 t2 nu lam nm.1 nm.2

/-! ### Rolling-buffer engine (`memTWED`, src/TWED/memoryEfficient_TWED.py) -/

/-- `memTWED.__init__`: `assert _nu >= 0`; in strict mode
(`failOnDifferingLengths`) `assert self.n == self.m`, otherwise a warning is
printed when `n < m` (returned here as a `Bool` flag alongside `(n, m)`). -/
def memTWED_init (t1 t2 : List ℚ) (lam nu : ℚ) (failOnDifferingLengths : Bool) :
    Except TWEDErr (Nat × Nat × Bool) :=
  if 0 ≤ nu then
    if failOnDifferingLengths then
      if t1.length = t2.length then .ok (t1.length, t2.length, false)
      else .error .lengthMismatch
    else .ok (t1.length, t2.length, decide (t1.length < t2.length))
  else .error .invalidParam

/-- `memTWED._init_matrix`: `np.zeros((2, n))`; `matrix[0, :] = np.inf`;
`matrix[:, 0] = np.inf`; `matrix[0, 0] = 0`.  Slice assignments cannot fail,
so the result is a plain matrix (height 2, width `n`). -/
def memTWED_init_matrix (n : Nat) : Mat :=
  let M0 : Mat := fun _ _ => 0
  let M1 : Mat := fun r j => if r = 0 then ⊤ else M0 r j
  let M2 : Mat := fun r j => if j = 0 then ⊤ else M1 r j
  fun r j => if r = 0 ∧ j = 0 then 0 else M2 r j

/-- The inner-loop body of `memTWED._calculateCosts` at `(i, j)` with row
indices `mi` (current) and `ai` (previous); the buffer has height 2 and
width `n`.  Timestamps are the plain indices, as in the source
(`nu*(i - (i-1))`, `nu*(_abs(i-j) + _abs((i-1)-(j-1)))`). -/
def memTWED_body (t1 t2 : List ℚ) (nu lam : ℚ) (n : Nat) (mi ai : Nat)
    (M : Mat) (i j : Nat) : Except TWEDErr Mat := do
  let a1 ← mread 2 n M ai j
  let dA := a1 + ↑|t1.getD (i - 1) 0 - t1.getD i 0|
               + ↑(nu * ((i : ℚ) - ((i : ℚ) - 1))) + ↑lam
  let a2 ← mread 2 n M mi (j - 1)
  let dB := a2 + ↑|t2.getD (j - 1) 0 - t2.getD j 0|
               + ↑(nu * ((j : ℚ) - ((j : ℚ) - 1))) + ↑lam
  let a3 ← mread 2 n M ai (j - 1)
  let dM := a3 + ↑|t1.getD i 0 - t2.getD j 0|
               + ↑|t1.getD (i - 1) 0 - t2.getD (j - 1) 0|
               + ↑(nu * (|(i : ℚ) - (j : ℚ)| + |((i : ℚ) - 1) - ((j : ℚ) - 1)|))
  mwrite 2 n M mi j (min dA (min dB dM))

/-- Inner loop `for j in range(1, m)` of `memTWED._calculateCosts`. -/
def memTWED_inner (t1 t2 : List ℚ) (nu lam : ℚ) (n : Nat) (i mi ai : Nat)
    (M : Mat) (j cnt : Nat) : Except TWEDErr Mat :=
  match cnt with
  | 0 => .ok M
  | cnt' + 1 => do
      let M1 ← memTWED_body t1 t2 nu lam n mi ai M i j
      memTWED_inner t1 t2 nu lam n i mi ai M1 (j + 1) cnt'

/-- Outer loop `for i in range(1, n)` of `memTWED._calculateCosts`, with the
`for … else` clause `matrix[0, 0] = np.inf` after each inner loop, and the
loop variable `mi` recorded (the source reads it after the loop). -/
def memTWED_outer (t1 t2 : List ℚ) (nu lam : ℚ) (n m : Nat) (M : Mat)
    (i cnt : Nat) (lastMi : Option Nat) : Except TWEDErr (Mat × Option Nat) :=
  match cnt with
  | 0 => .ok (M, lastMi)
  | cnt' + 1 =>
      let mi := i % 2
      let ai := ((mi : Int) - 1).natAbs
      do
        let M1 ← memTWED_inner t1 t2 nu lam n i mi ai M 1 (m - 1)
        let M2 ← mwrite 2 n M1 0 0 ⊤
        memTWED_outer t1 t2 nu lam n m M2 (i + 1) cnt' (some mi)

/-- `memTWED._calculateCosts`: run the sweep on the `(2, n)` buffer and
return `matrix[mi, m-1]`; if the outer loop never ran, reading `mi` is an
unbound-local failure. -/
def memTWED_calculateCosts (t1 t2 : List ℚ) (nu lam : ℚ) (n m : Nat) :
    Except TWEDErr Val := do
  let r ← memTWED_outer t1 t2 nu lam n m (memTWED_init_matrix n) 1 (n - 1) none
  match r.2 with
  | none => .error .unboundLocal
  | some mi => mread 2 n r.1 mi (m - 1)

/-- Construction followed by `calculateCosts` for the rolling-buffer engine,
in its default non-strict mode. -/
def memTWED_run (t1 t2 : List ℚ) (lam nu : ℚ) : Except TWEDErr Val := do
  let ini ← memTWED_init t1 t2 lam nu false
  memTWED_calculateCosts t1 t2 nu lam ini.1 ini.2.1

/-! ### Batch engine (`multiTWED`, src/TWED/multiInput_TWED.py) -/

/-- Whether `np.array(t2)` is a two-dimensional (rectangular, non-empty)
array, i.e. `len(t2.shape) == 2`. -/
def is2D (t2 : List (List ℚ)) : Bool :=
  match t2 with
  | [] => false
  | r :: rs => rs.all (fun row => row.length = r.length)

/-- `multiTWED.__init__`: `assert _nu >= 0`, then `n = len(t1)`, `m = n`,
`numSeries = len(t2)`, then `assert len(t2.shape) == 2`.  Row lengths are
never compared with `n`. -/
def multiTWED_init (t1 : List ℚ) (t2 : List (List ℚ)) (lam nu : ℚ) :
    Except TWEDErr (Nat × Nat × Nat) :=
  if 0 ≤ nu then
    if is2D t2 then .ok (t1.length, t1.length, t2.length)
    else .error .shapeError
  else .error .invalidParam

/-- The batched matrix `np.zeros((numSeries, 2, n))`, one `(2, n)` plane per
target series, indexed by the series index `p`. -/
abbrev MMat := Nat → Mat

/-- `multiTWED._init_matrix`: `matrix[:, 0, :] = np.inf`;
`matrix[:, :, 0] = np.inf`; `matrix[:, 0, 0] = 0`. -/
def multiTWED_init_matrix (n : Nat) : MMat :=
  let M0 : MMat := fun _ _ _ => 0
  let M1 : MMat := fun p r j => if r = 0 then ⊤ else M0 p r j
  let M2 : MMat := fun p r j => if j = 0 then ⊤ else M1 p r j
  fun p r j => if r = 0 ∧ j = 0 then 0 else M2 p r j

/-- Vector read `matrix[:, r, j]` of the batched buffer (width `n`). -/
def mmread (n : Nat) (M : MMat) (r j : Nat) : Except TWEDErr (Nat → Val) :=
  if r < 2 ∧ j < n then .ok (fun p => M p r j) else .error .indexError

/-- Pointwise functional update of the batched buffer at one cell of every
plane. -/
def mmupd (M : MMat) (r j : Nat) (v : Nat → Val) : MMat :=
  fun p a b => if a = r ∧ b = j then v p else M p a b

/-- Vector write `matrix[:, r, j] = v` of the batched buffer (width `n`). -/
def mmwrite (n : Nat) (M : MMat) (r j : Nat) (v : Nat → Val) :
    Except TWEDErr MMat :=
  if r < 2 ∧ j < n then .ok (mmupd M r j v) else .error .indexError

/-- Column read `t2_data[:, j]` of the batch, a 2-D array whose rows have
common length `L`. -/
def colRead (t2 : List (List ℚ)) (L j : Nat) : Except TWEDErr (Nat → ℚ) :=
  if j < L then .ok (fun p => (t2.getD p []).getD j 0) else .error .indexError

/-- The inner-loop body of `multiTWED.calculateCosts`: the three candidate
vectors and the element-wise minimum written to `matrix[:, mi, j]`. -/
def multiTWED_body (t1 : List ℚ) (t2 : List (List ℚ)) (nu lam : ℚ)
    (n L : Nat) (mi ai : Nat) (M : MMat) (i j : Nat) : Except TWEDErr MMat := do
  let a1 ← mmread n M ai j
  let dA := fun p => a1 p + ↑|t1.getD (i - 1) 0 - t1.getD i 0|
                   + ↑(nu * ((i : ℚ) - ((i : ℚ) - 1))) + ↑lam
  let a2 ← mmread n M mi (j - 1)
  let c1 ← colRead t2 L (j - 1)
  let c2 ← colRead t2 L j
  let dB := fun p => a2 p + ↑|c1 p - c2 p|
                   + ↑(nu * ((j : ℚ) - ((j : ℚ) - 1))) + ↑lam
  let a3 ← mmread n M ai (j - 1)
  let dM := fun p => a3 p + ↑|t1.getD i 0 - c2 p| + ↑|t1.getD (i - 1) 0 - c1 p|
                   + ↑(nu * (|(i : ℚ) - (j : ℚ)| + |((i : ℚ) - 1) - ((j : ℚ) - 1)|))
  mmwrite n M mi j (fun p => min (dA p) (min (dB p) (dM p)))

/-- Inner loop `for j in range(1, m)` of `multiTWED.calculateCosts`. -/
def multiTWED_inner (t1 : List ℚ) (t2 : List (List ℚ)) (nu lam : ℚ)
    (n L : Nat) (i mi ai : Nat) (M : MMat) (j cnt : Nat) : Except TWEDErr MMat :=
  match cnt with
  | 0 => .ok M
  | cnt' + 1 => do
      let M1 ← multiTWED_body t1 t2 nu lam n L mi ai M i j
      multiTWED_inner t1 t2 nu lam n L i mi ai M1 (j + 1) cnt'

/-- Outer loop `for i in range(1, n)` of `multiTWED.calculateCosts`, with the
`for … else` clause `matrix[:, 0, 0] = np.inf` and the loop variable `mi`
recorded. -/
def multiTWED_outer (t1 : List ℚ) (t2 : List (List ℚ)) (nu lam : ℚ)
    (n m L : Nat) (M : MMat) (i cnt : Nat) (lastMi : Option Nat) :
    Except TWEDErr (MMat × Option Nat) :=
  match cnt with
  | 0 => .ok (M, lastMi)
  | cnt' + 1 =>
      let mi := i % 2
      let ai := ((mi : Int) - 1).natAbs
      do
        let M1 ← multiTWED_inner t1 t2 nu lam n L i mi ai M 1 (m - 1)
        let M2 ← mmwrite n M1 0 0 (fun _ => ⊤)
        multiTWED_outer t1 t2 nu lam n m L M2 (i + 1) cnt' (some mi)

/-- `multiTWED.calculateCosts`: run the batched sweep and return the vector
`matrix[:, mi, m-1]` as a list in series order. -/
def multiTWED_calculateCosts (t1 : List ℚ) (t2 : List (List ℚ)) (nu lam : ℚ)
    (n m numSeries L : Nat) : Except TWEDErr (List Val) := do
  let r ← multiTWED_outer t1 t2 nu lam n m L (multiTWED_init_matrix n) 1 (n - 1) none
  match r.2 with
  | none => .error .unboundLocal
  | some mi =>
      if mi < 2 ∧ m - 1 < n then
        .ok ((List.range numSeries).map (fun p => r.1 p mi (m - 1)))
      else .error .indexError

/-- Construction followed by `calculateCosts` for the batch engine.  The
common row length of the (rectangular) batch is the length of its first row,
as in the numpy shape `(numSeries, L)`. -/
def multiTWED_run (t1 : List ℚ) (t2 : List (List ℚ)) (lam nu : ℚ) :
    Except TWEDErr (List Val) := do
  let ini ← multiTWED_init t1 t2 lam nu
  multiTWED_calculateCosts t1 t2 nu lam ini.1 ini.2.1 ini.2.2 t2.headI.length

/-! ### Reference cell function

`cellRef t1 t2 nu lam i j` is the value the TWED recurrence assigns to the
conceptual full-matrix cell `(i, j)`: the boundary sentinels on row 0 and
column 0 (origin 0), and the `min` of `_deleteA`, `_deleteB`, `_match`
elsewhere.  It is a proof device used to relate the engines to each other;
its body mirrors the naive engine's loop body. -/

def cellRef (t1 t2 : List ℚ) (nu lam : ℚ) : Nat → Nat → Val
  | 0, 0 => 0
  | 0, _ + 1 => ⊤
  | _ + 1, 0 => ⊤
  | i + 1, j + 1 =>
      min (cellRef t1 t2 nu lam i (j + 1) + ↑|t1.getD i 0 - t1.getD (i + 1) 0|
             + ↑(nu * (arangeT (i + 1) - arangeT i)) + ↑lam)
        (min (cellRef t1 t2 nu lam (i + 1) j + ↑|t2.getD j 0 - t2.getD (j + 1) 0|
                + ↑(nu * (arangeT (j + 1) - arangeT j)) + ↑lam)
          (cellRef t1 t2 nu lam i j + ↑|t1.getD (i + 1) 0 - t2.getD (j + 1) 0|
             + ↑|t1.getD i 0 - t2.getD j 0|
             + ↑(nu * (|arangeT (i + 1) - arangeT (j + 1)| + |arangeT i - arangeT j|))))
termination_by i j => (i, j)

/-- Pointwise order on matrices (a proof device for the monotonicity
claims). -/
def MatLE (M1 M2 : Mat) : Prop := ∀ a b, M1 a b ≤ M2 a b

/-! ### Basic lemmas about the embedding -/

@[simp] theorem exceptOk_bind {ε α β : Type} (x : α) (f : α → Except ε β) :
    (Except.ok x >>= f) = f x := rfl

@[simp] theorem exceptError_bind {ε α β : Type} (e : ε) (f : α → Except ε β) :
    ((Except.error e : Except ε α) >>= f) = Except.error e := rfl

theorem exceptBind_eq_ok {ε α β : Type} {x : Except ε α} {f : α → Except ε β}
    {b : β} : (x >>= f) = .ok b ↔ ∃ a, x = .ok a ∧ f a = .ok b := by
  cases x <;> simp

theorem mupd_apply (M : Mat) (i j : Nat) (v : Val) (a b : Nat) :
    mupd M i j v a b = if a = i ∧ b = j then v else M a b := rfl

@[simp] theorem mupd_self (M : Mat) (i j : Nat) (v : Val) :
    mupd M i j v i j = v := by simp [mupd]

theorem mupd_ne (M : Mat) (i j : Nat) (v : Val) {a b : Nat}
    (h : ¬(a = i ∧ b = j)) : mupd M i j v a b = M a b := by
  simp [mupd, h]

theorem mread_ok {h w i j : Nat} (M : Mat) (hi : i < h) (hj : j < w) :
    mread h w M i j = .ok (M i j) := by
  simp [mread, hi, hj]

theorem mwrite_ok {h w i j : Nat} (M : Mat) (v : Val) (hi : i < h) (hj : j < w) :
    mwrite h w M i j v = .ok (mupd M i j v) := by
  simp [mwrite, hi, hj]

theorem aiVal (i : Nat) (h : 1 ≤ i) :
    (((i % 2 : Nat) : Int) - 1).natAbs = (i - 1) % 2 := by
  omega

theorem cellRef_zero_zero (t1 t2 : List ℚ) (nu lam : ℚ) :
    cellRef t1 t2 nu lam 0 0 = 0 := by
  simp [cellRef]

theorem cellRef_zero_succ (t1 t2 : List ℚ) (nu lam : ℚ) (j : Nat) :
    cellRef t1 t2 nu lam 0 (j + 1) = ⊤ := by
  simp [cellRef]

theorem cellRef_succ_zero (t1 t2 : List ℚ) (nu lam : ℚ) (i : Nat) :
    cellRef t1 t2 nu lam (i + 1) 0 = ⊤ := by
  simp [cellRef]

theorem cellRef_succ_succ (t1 t2 : List ℚ) (nu lam : ℚ) (i j : Nat) :
    cellRef t1 t2 nu lam (i + 1) (j + 1) =
      min (cellRef t1 t2 nu lam i (j + 1) + ↑|t1.getD i 0 - t1.getD (i + 1) 0|
             + ↑(nu * (arangeT (i + 1) - arangeT i)) + ↑lam)
        (min (cellRef t1 t2 nu lam (i + 1) j + ↑|t2.getD j 0 - t2.getD (j + 1) 0|
                + ↑(nu * (arangeT (j + 1) - arangeT j)) + ↑lam)
          (cellRef t1 t2 nu lam i j + ↑|t1.getD (i + 1) 0 - t2.getD (j + 1) 0|
             + ↑|t1.getD i 0 - t2.getD j 0|
             + ↑(nu * (|arangeT (i + 1) - arangeT (j + 1)| + |arangeT i - arangeT j|)))) := by
  rw [cellRef]

/-! ### Characterization of the naive engine via `cellRef` -/

theorem TWED_initLoop_sq (n : Nat) :
    ∀ (cnt i : Nat) (M : Mat), i + cnt ≤ n →
    ∃ M', TWED_initLoop n n i cnt M = .ok M' ∧
      ∀ a b, M' a b =
        if (b = 0 ∧ i ≤ a ∧ a < i + cnt) ∨ (a = 0 ∧ i ≤ b ∧ b < i + cnt) then ⊤
        else M a b := by
  intro cnt
  induction cnt with
  | zero =>
      intro i M _
      exact ⟨M, rfl, fun a b => by rw [if_neg (by omega)]⟩
  | succ cnt' ih =>
      intro i M hle
      have hin : i < n := by omega
      have h0n : 0 < n := by omega
      rw [TWED_initLoop, mwrite_ok M ⊤ hin h0n, exceptOk_bind,
        mwrite_ok _ ⊤ h0n hin, exceptOk_bind]
      obtain ⟨M', hM', hf⟩ := ih (i + 1) (mupd (mupd M i 0 ⊤) 0 i ⊤) (by omega)
      refine ⟨M', hM', ?_⟩
      intro a b
      rw [hf a b]
      simp only [mupd_apply]
      split_ifs <;> first | rfl | omega

theorem TWED_init_matrix_sq (n : Nat) (hn : 1 ≤ n) :
    ∃ B, TWED_init_matrix n n = .ok B ∧
      ∀ a b, a < n → b < n → B a b =
        if a = 0 ∧ b = 0 then 0 else if a = 0 ∨ b = 0 then ⊤ else 0 := by
  obtain ⟨M', hM', hf⟩ := TWED_initLoop_sq n n 0 (fun _ _ => 0) (by omega)
  rw [TWED_init_matrix, hM', exceptOk_bind, mwrite_ok M' 0 hn hn]
  refine ⟨mupd M' 0 0 0, rfl, ?_⟩
  intro a b ha hb
  simp only [mupd_apply, hf a b]
  split_ifs <;> first | rfl | omega

theorem TWED_body_cell (t1 t2 : List ℚ) (nu lam : ℚ) (n m : Nat) (M : Mat)
    (i j : Nat) (hi1 : 1 ≤ i) (hj1 : 1 ≤ j) (hin : i < n) (hjm : j < m)
    (h1 : M (i - 1) j = cellRef t1 t2 nu lam (i - 1) j)
    (h2 : M i (j - 1) = cellRef t1 t2 nu lam i (j - 1))
    (h3 : M (i - 1) (j - 1) = cellRef t1 t2 nu lam (i - 1) (j - 1)) :
    TWED_body t1 t2 nu lam n m M i j =
      .ok (mupd M i j (cellRef t1 t2 nu lam i j)) := by
  obtain ⟨a, rfl⟩ : ∃ a, i = a + 1 := ⟨i - 1, by omega⟩
  obtain ⟨b, rfl⟩ : ∃ b, j = b + 1 := ⟨j - 1, by omega⟩
  simp only [Nat.add_sub_cancel] at h1 h2 h3 ⊢
  rw [TWED_body]
  simp only [Nat.add_sub_cancel]
  rw [mread_ok M (by omega) hjm, exceptOk_bind,
    mread_ok M hin (by omega), exceptOk_bind,
    mread_ok M (by omega) (by omega), exceptOk_bind,
    mwrite_ok M _ hin hjm, h1, h2, h3, cellRef_succ_succ]

theorem TWED_inner_char (t1 t2 : List ℚ) (nu lam : ℚ) (n m : Nat) (i : Nat)
    (hi1 : 1 ≤ i) (hin : i < n) :
    ∀ (cnt j : Nat) (M : Mat), 1 ≤ j → j + cnt = m →
    (∀ b, b < m → M (i - 1) b = cellRef t1 t2 nu lam (i - 1) b) →
    (∀ b, b < j → M i b = cellRef t1 t2 nu lam i b) →
    ∃ M', TWED_inner t1 t2 nu lam n m i M j cnt = .ok M' ∧
      ∀ a b, M' a b =
        if a = i ∧ j ≤ b ∧ b < m then cellRef t1 t2 nu lam i b else M a b := by
  intro cnt
  induction cnt with
  | zero =>
      intro j M hj1 hjm hprev hcur
      exact ⟨M, rfl, fun a b => by rw [if_neg (by omega)]⟩
  | succ cnt' ih =>
      intro j M hj1 hjm hprev hcur
      have hjltm : j < m := by omega
      rw [TWED_inner,
        TWED_body_cell t1 t2 nu lam n m M i j hi1 hj1 hin hjltm
          (hprev j hjltm) (hcur (j - 1) (by omega)) (hprev (j - 1) (by omega)),
        exceptOk_bind]
      obtain ⟨M', hM', hf⟩ := ih (j + 1) (mupd M i j (cellRef t1 t2 nu lam i j))
        (by omega) (by omega)
        (by
          intro b hb
          rw [mupd_ne M _ _ _ (by omega)]
          exact hprev b hb)
        (by
          intro b hb
          by_cases hbj : b = j
          · subst hbj
            exact mupd_self M i b _
          · rw [mupd_ne M _ _ _ (by intro hc; exact hbj hc.2)]
            exact hcur b (by omega))
      refine ⟨M', hM', ?_⟩
      intro a b
      rw [hf a b]
      by_cases hB : a = i ∧ b = j
      · obtain ⟨rfl, rfl⟩ := hB
        rw [if_neg (by omega), mupd_self, if_pos ⟨rfl, by omega, hjltm⟩]
      · rw [mupd_ne M _ _ _ hB]
        by_cases hA : a = i ∧ j + 1 ≤ b ∧ b < m
        · rw [if_pos hA, if_pos ⟨hA.1, by omega, hA.2.2⟩]
        · rw [if_neg hA, if_neg (by omega)]

theorem TWED_outer_char (t1 t2 : List ℚ) (nu lam : ℚ) (n m : Nat) (hm : 1 ≤ m) :
    ∀ (cnt i : Nat) (M : Mat), 1 ≤ i → i + cnt ≤ n →
    (∀ b, b < m → M (i - 1) b = cellRef t1 t2 nu lam (i - 1) b) →
    (∀ a, 1 ≤ a → a < n → M a 0 = cellRef t1 t2 nu lam a 0) →
    ∃ M', TWED_outer t1 t2 nu lam n m M i cnt = .ok M' ∧
      ∀ b, b < m → M' (i + cnt - 1) b = cellRef t1 t2 nu lam (i + cnt - 1) b := by
  intro cnt
  induction cnt with
  | zero =>
      intro i M hi1 hle hprev _
      exact ⟨M, rfl, by simpa using hprev⟩
  | succ cnt' ih =>
      intro i M hi1 hle hprev hcol
      have hin : i < n := by omega
      obtain ⟨M1, hM1, hf1⟩ := TWED_inner_char t1 t2 nu lam n m i hi1 hin
        (m - 1) 1 M (by omega) (by omega) hprev
        (by
          intro b hb
          interval_cases b
          exact hcol i hi1 hin)
      rw [TWED_outer, hM1, exceptOk_bind]
      have hprev' : ∀ b, b < m →
          M1 (i + 1 - 1) b = cellRef t1 t2 nu lam (i + 1 - 1) b := by
        intro b hb
        simp only [Nat.add_sub_cancel]
        rw [hf1 i b]
        by_cases hb0 : b = 0
        · subst hb0
          rw [if_neg (by omega)]
          exact hcol i hi1 hin
        · rw [if_pos ⟨rfl, by omega, hb⟩]
      have hcol' : ∀ a, 1 ≤ a → a < n → M1 a 0 = cellRef t1 t2 nu lam a 0 := by
        intro a ha1 han
        rw [hf1 a 0, if_neg (by omega)]
        exact hcol a ha1 han
      obtain ⟨M', hM', hf⟩ := ih (i + 1) M1 (by omega) (by omega) hprev' hcol'
      refine ⟨M', hM', ?_⟩
      have harith : i + (cnt' + 1) - 1 = i + 1 + cnt' - 1 := by omega
      rw [harith]
      exact hf

theorem TWED_run_char (t1 t2 : List ℚ) (lam nu : ℚ) (hnu : 0 ≤ nu)
    (hlen : t1.length = t2.length) (h1 : 1 ≤ t1.length) :
    TWED_run t1 t2 lam nu =
      .ok (cellRef t1 t2 nu lam (t1.length - 1) (t1.length - 1)) := by
  rw [TWED_run, TWED_init, if_pos hnu, exceptOk_bind, TWED_calculateCosts]
  rw [← hlen]
  obtain ⟨B, hB, hBf⟩ := TWED_init_matrix_sq t1.length h1
  rw [hB, exceptOk_bind]
  obtain ⟨M', hM', hf⟩ := TWED_outer_char t1 t2 nu lam t1.length t1.length h1
    (t1.length - 1) 1 B (by omega) (by omega)
    (by
      intro b hb
      simp only [Nat.sub_self]
      rw [hBf 0 b (by omega) hb]
      match b with
      | 0 => rw [if_pos ⟨rfl, rfl⟩, cellRef_zero_zero]
      | b + 1 =>
          rw [if_neg (by omega), if_pos (Or.inl rfl), cellRef_zero_succ]
    )
    (by
      intro a ha1 han
      rw [hBf a 0 han (by omega), if_neg (by omega), if_pos (Or.inr rfl)]
      match a, ha1 with
      | a + 1, _ => rw [cellRef_succ_zero]
    )
  rw [hM', exceptOk_bind]
  have harith : 1 + (t1.length - 1) - 1 = t1.length - 1 := by omega
  rw [harith] at hf
  rw [mread_ok M' (by omega) (by omega), hf (t1.length - 1) (by omega)]

/-! ### Characterization of the rolling-buffer engine via `cellRef` -/

theorem cellRef_pos_zero (t1 t2 : List ℚ) (nu lam : ℚ) {i : Nat} (hi : 1 ≤ i) :
    cellRef t1 t2 nu lam i 0 = ⊤ := by
  match i, hi with
  | i + 1, _ => exact cellRef_succ_zero t1 t2 nu lam i

theorem memB_00 (n : Nat) : memTWED_init_matrix n 0 0 = 0 := by
  simp [memTWED_init_matrix]

theorem memB_0succ (n b : Nat) : memTWED_init_matrix n 0 (b + 1) = ⊤ := by
  simp [memTWED_init_matrix]

theorem memB_10 (n : Nat) : memTWED_init_matrix n 1 0 = ⊤ := by
  simp [memTWED_init_matrix]

theorem qdel (nu : ℚ) (k : Nat) :
    nu * (((k + 1 : Nat) : ℚ) - (((k + 1 : Nat) : ℚ) - 1)) =
      nu * (arangeT (k + 1) - arangeT k) := by
  unfold arangeT
  push_cast
  ring

theorem qmatch (nu : ℚ) (a b : Nat) :
    nu * (|((a + 1 : Nat) : ℚ) - ((b + 1 : Nat) : ℚ)| +
        |(((a + 1 : Nat) : ℚ) - 1) - (((b + 1 : Nat) : ℚ) - 1)|) =
      nu * (|arangeT (a + 1) - arangeT (b + 1)| + |arangeT a - arangeT b|) := by
  unfold arangeT
  push_cast
  congr 2
  · congr 1
    ring
  · congr 1
    ring

theorem memTWED_body_cell (t1 t2 : List ℚ) (nu lam : ℚ) (n : Nat)
    (mi ai : Nat) (M : Mat) (i j : Nat) (hi1 : 1 ≤ i) (hj1 : 1 ≤ j)
    (hmi : mi < 2) (hai : ai < 2) (hjn : j < n)
    (hA : M ai j = cellRef t1 t2 nu lam (i - 1) j)
    (hB : M mi (j - 1) = cellRef t1 t2 nu lam i (j - 1))
    (hC : M ai (j - 1) = cellRef t1 t2 nu lam (i - 1) (j - 1)) :
    memTWED_body t1 t2 nu lam n mi ai M i j =
      .ok (mupd M mi j (cellRef t1 t2 nu lam i j)) := by
  obtain ⟨a, rfl⟩ : ∃ a, i = a + 1 := ⟨i - 1, by omega⟩
  obtain ⟨b, rfl⟩ : ∃ b, j = b + 1 := ⟨j - 1, by omega⟩
  simp only [Nat.add_sub_cancel] at hA hB hC ⊢
  rw [memTWED_body]
  simp only [Nat.add_sub_cancel]
  rw [mread_ok M hai hjn, exceptOk_bind,
    mread_ok M hmi (by omega), exceptOk_bind,
    mread_ok M hai (by omega), exceptOk_bind,
    mwrite_ok M _ hmi hjn, hA, hB, hC, cellRef_succ_succ,
    qdel nu a, qdel nu b, qmatch nu a b]

theorem memTWED_inner_char (t1 t2 : List ℚ) (nu lam : ℚ) (n m : Nat)
    (i mi ai : Nat) (hi1 : 1 ≤ i) (hmn : m ≤ n)
    (hmi : mi < 2) (hai : ai < 2) (hne : mi ≠ ai) :
    ∀ (cnt j : Nat) (M : Mat), 1 ≤ j → j + cnt = m →
    (∀ b, b < m → M ai b = cellRef t1 t2 nu lam (i - 1) b) →
    (∀ b, b < j → M mi b = cellRef t1 t2 nu lam i b) →
    ∃ M', memTWED_inner t1 t2 nu lam n i mi ai M j cnt = .ok M' ∧
      ∀ a b, M' a b =
        if a = mi ∧ j ≤ b ∧ b < m then cellRef t1 t2 nu lam i b else M a b := by
  intro cnt
  induction cnt with
  | zero =>
      intro j M hj1 hjm hprev hcur
      exact ⟨M, rfl, fun a b => by rw [if_neg (by omega)]⟩
  | succ cnt' ih =>
      intro j M hj1 hjm hprev hcur
      have hjltm : j < m := by omega
      rw [memTWED_inner,
        memTWED_body_cell t1 t2 nu lam n mi ai M i j hi1 hj1 hmi hai (by omega)
          (hprev j hjltm) (hcur (j - 1) (by omega)) (hprev (j - 1) (by omega)),
        exceptOk_bind]
      obtain ⟨M', hM', hf⟩ := ih (j + 1) (mupd M mi j (cellRef t1 t2 nu lam i j))
        (by omega) (by omega)
        (by
          intro b hb
          rw [mupd_ne M _ _ _ (by intro hc; exact hne hc.1.symm)]
          exact hprev b hb)
        (by
          intro b hb
          by_cases hbj : b = j
          · subst hbj
            exact mupd_self M mi b _
          · rw [mupd_ne M _ _ _ (by intro hc; exact hbj hc.2)]
            exact hcur b (by omega))
      refine ⟨M', hM', ?_⟩
      intro a b
      rw [hf a b]
      by_cases hB : a = mi ∧ b = j
      · obtain ⟨rfl, rfl⟩ := hB
        rw [if_neg (by omega), mupd_self, if_pos ⟨rfl, by omega, hjltm⟩]
      · rw [mupd_ne M _ _ _ hB]
        by_cases hA : a = mi ∧ j + 1 ≤ b ∧ b < m
        · rw [if_pos hA, if_pos ⟨hA.1, by omega, hA.2.2⟩]
        · rw [if_neg hA, if_neg (by omega)]

theorem memTWED_outer_char (t1 t2 : List ℚ) (nu lam : ℚ) (n m : Nat)
    (hm1 : 1 ≤ m) (hmn : m ≤ n) :
    ∀ (cnt i : Nat) (M : Mat) (l : Option Nat), 1 ≤ i → 1 ≤ cnt →
    (∀ b, b < m → M ((i - 1) % 2) b = cellRef t1 t2 nu lam (i - 1) b) →
    M (i % 2) 0 = ⊤ →
    ∃ M', memTWED_outer t1 t2 nu lam n m M i cnt l =
        .ok (M', some ((i + cnt - 1) % 2)) ∧
      (∀ b, b < m → M' ((i + cnt - 1) % 2) b = cellRef t1 t2 nu lam (i + cnt - 1) b) ∧
      M' ((i + cnt) % 2) 0 = ⊤ ∧ M' 0 0 = ⊤ := by
  intro cnt
  induction cnt with
  | zero => omega
  | succ cnt' ih =>
      intro i M l hi1 _ hprev hcur0
      obtain ⟨M1, hM1, hf1⟩ := memTWED_inner_char t1 t2 nu lam n m i (i % 2)
        ((i - 1) % 2) hi1 hmn (by omega) (by omega) (by omega)
        (m - 1) 1 M (by omega) (by omega) hprev
        (by
          intro b hb
          interval_cases b
          rw [hcur0, cellRef_pos_zero t1 t2 nu lam hi1])
      have hM2w : mwrite 2 n M1 0 0 ⊤ = .ok (mupd M1 0 0 ⊤) :=
        mwrite_ok M1 ⊤ (by omega) (by omega)
      have hrow : ∀ b, b < m →
          mupd M1 0 0 ⊤ (i % 2) b = cellRef t1 t2 nu lam i b := by
        intro b hb
        by_cases hb0 : b = 0
        · subst hb0
          rcases Nat.mod_two_eq_zero_or_one i with h2 | h2 <;> rw [h2]
          · rw [mupd_self, cellRef_pos_zero t1 t2 nu lam hi1]
          · rw [mupd_ne M1 _ _ _ (by omega), hf1 1 0, if_neg (by omega), ← h2,
              hcur0, cellRef_pos_zero t1 t2 nu lam hi1]
        · rw [mupd_ne M1 _ _ _ (by omega), hf1 (i % 2) b,
            if_pos ⟨rfl, by omega, hb⟩]
      have hnext0 : mupd M1 0 0 ⊤ ((i + 1) % 2) 0 = ⊤ := by
        rcases Nat.mod_two_eq_zero_or_one (i + 1) with h2 | h2 <;> rw [h2]
        · rw [mupd_self]
        · rw [mupd_ne M1 _ _ _ (by omega), hf1 1 0, if_neg (by omega)]
          have hieven : (i - 1) % 2 = 1 := by omega
          rw [← hieven, hprev 0 (by omega),
            cellRef_pos_zero t1 t2 nu lam (by omega)]
      rw [memTWED_outer]
      simp only [aiVal i hi1]
      rw [hM1, exceptOk_bind, hM2w, exceptOk_bind]
      match cnt', ih with
      | 0, _ =>
          rw [memTWED_outer]
          have harith : i + 1 - 1 = i := by omega
          rw [harith]
          exact ⟨mupd M1 0 0 ⊤, rfl, hrow, by
            constructor
            · exact hnext0
            · rw [mupd_self]⟩
      | cnt'' + 1, ih =>
          obtain ⟨M', hM', hrow', hc0', h00'⟩ := ih (i + 1) (mupd M1 0 0 ⊤)
            (some (i % 2)) (by omega) (by omega)
            (by simpa using hrow) hnext0
          have ha1 : i + (cnt'' + 1 + 1) - 1 = i + 1 + (cnt'' + 1) - 1 := by omega
          have ha2 : i + (cnt'' + 1 + 1) = i + 1 + (cnt'' + 1) := by omega
          rw [ha1, ha2]
          exact ⟨M', hM', hrow', hc0', h00'⟩

theorem memTWED_calculateCosts_char (t1 t2 : List ℚ) (nu lam : ℚ) (n m : Nat)
    (h2n : 2 ≤ n) (hm1 : 1 ≤ m) (hmn : m ≤ n) :
    memTWED_calculateCosts t1 t2 nu lam n m =
      .ok (cellRef t1 t2 nu lam (n - 1) (m - 1)) := by
  obtain ⟨M', hM', hrow, _, _⟩ := memTWED_outer_char t1 t2 nu lam n m hm1 hmn
    (n - 1) 1 (memTWED_init_matrix n) none (by omega) (by omega)
    (by
      intro b hb
      simp only [Nat.sub_self]
      match b with
      | 0 => rw [memB_00, cellRef_zero_zero]
      | b + 1 => rw [memB_0succ, cellRef_zero_succ])
    (by rw [Nat.one_mod_eq_one.2 (by omega), memB_10])
  rw [memTWED_calculateCosts, hM', exceptOk_bind]
  have harith : 1 + (n - 1) - 1 = n - 1 := by omega
  rw [harith] at hrow ⊢
  dsimp only
  rw [mread_ok M' (by omega) (by omega), hrow (m - 1) (by omega)]

theorem memTWED_run_char (t1 t2 : List ℚ) (lam nu : ℚ) (hnu : 0 ≤ nu)
    (h2n : 2 ≤ t1.length) (hm1 : 1 ≤ t2.length) (hmn : t2.length ≤ t1.length) :
    memTWED_run t1 t2 lam nu =
      .ok (cellRef t1 t2 nu lam (t1.length - 1) (t2.length - 1)) := by
  rw [memTWED_run, memTWED_init, if_pos hnu]
  simp only [Bool.false_eq_true, if_false, exceptOk_bind]
  exact memTWED_calculateCosts_char t1 t2 nu lam t1.length t2.length h2n hm1 hmn

/-! ### Characterization of the batch engine via `cellRef` -/

theorem mmupd_self (M : MMat) (r j : Nat) (v : Nat → Val) (p : Nat) :
    mmupd M r j v p r j = v p := by
  simp [mmupd]

theorem mmupd_ne (M : MMat) (r j : Nat) (v : Nat → Val) (p : Nat) {a b : Nat}
    (h : ¬(a = r ∧ b = j)) : mmupd M r j v p a b = M p a b := by
  simp [mmupd, h]

theorem mmread_ok {n r j : Nat} (M : MMat) (hr : r < 2) (hj : j < n) :
    mmread n M r j = .ok (fun p => M p r j) := by
  simp [mmread, hr, hj]

theorem mmwrite_ok {n r j : Nat} (M : MMat) (v : Nat → Val) (hr : r < 2)
    (hj : j < n) : mmwrite n M r j v = .ok (mmupd M r j v) := by
  simp [mmwrite, hr, hj]

theorem colRead_ok {L j : Nat} (t2 : List (List ℚ)) (hj : j < L) :
    colRead t2 L j = .ok (fun p => (t2.getD p []).getD j 0) := by
  simp [colRead, hj]

theorem multiB_00 (n p : Nat) : multiTWED_init_matrix n p 0 0 = 0 := by
  simp [multiTWED_init_matrix]

theorem multiB_0succ (n p b : Nat) : multiTWED_init_matrix n p 0 (b + 1) = ⊤ := by
  simp [multiTWED_init_matrix]

theorem multiB_10 (n p : Nat) : multiTWED_init_matrix n p 1 0 = ⊤ := by
  simp [multiTWED_init_matrix]

theorem multiTWED_body_cell (t1 : List ℚ) (t2 : List (List ℚ)) (nu lam : ℚ)
    (n L : Nat) (mi ai : Nat) (M : MMat) (i j : Nat) (hi1 : 1 ≤ i) (hj1 : 1 ≤ j)
    (hmi : mi < 2) (hai : ai < 2) (hjn : j < n) (hjL : j < L)
    (hA : ∀ p, M p ai j = cellRef t1 (t2.getD p []) nu lam (i - 1) j)
    (hB : ∀ p, M p mi (j - 1) = cellRef t1 (t2.getD p []) nu lam i (j - 1))
    (hC : ∀ p, M p ai (j - 1) = cellRef t1 (t2.getD p []) nu lam (i - 1) (j - 1)) :
    multiTWED_body t1 t2 nu lam n L mi ai M i j =
      .ok (mmupd M mi j (fun p => cellRef t1 (t2.getD p []) nu lam i j)) := by
  obtain ⟨a, rfl⟩ : ∃ a, i = a + 1 := ⟨i - 1, by omega⟩
  obtain ⟨b, rfl⟩ : ∃ b, j = b + 1 := ⟨j - 1, by omega⟩
  simp only [Nat.add_sub_cancel] at hA hB hC ⊢
  rw [multiTWED_body]
  simp only [Nat.add_sub_cancel]
  rw [mmread_ok M hai hjn, exceptOk_bind,
    mmread_ok M hmi (by omega), exceptOk_bind,
    colRead_ok t2 (by omega : b < L), exceptOk_bind,
    colRead_ok t2 hjL, exceptOk_bind,
    mmread_ok M hai (by omega), exceptOk_bind,
    mmwrite_ok M _ hmi hjn]
  refine congrArg (fun v => Except.ok (mmupd M mi (b + 1) v)) ?_
  funext p
  simp only [hA, hB, hC]
  rw [cellRef_succ_succ, qdel nu a, qdel nu b, qmatch nu a b]

theorem multiTWED_inner_char (t1 : List ℚ) (t2 : List (List ℚ)) (nu lam : ℚ)
    (n m L : Nat) (i mi ai : Nat) (hi1 : 1 ≤ i) (hmn : m ≤ n) (hmL : m ≤ L)
    (hmi : mi < 2) (hai : ai < 2) (hne : mi ≠ ai) :
    ∀ (cnt j : Nat) (M : MMat), 1 ≤ j → j + cnt = m →
    (∀ p b, b < m → M p ai b = cellRef t1 (t2.getD p []) nu lam (i - 1) b) →
    (∀ p b, b < j → M p mi b = cellRef t1 (t2.getD p []) nu lam i b) →
    ∃ M', multiTWED_inner t1 t2 nu lam n L i mi ai M j cnt = .ok M' ∧
      ∀ p a b, M' p a b =
        if a = mi ∧ j ≤ b ∧ b < m then cellRef t1 (t2.getD p []) nu lam i b
        else M p a b := by
  intro cnt
  induction cnt with
  | zero =>
      intro j M hj1 hjm hprev hcur
      exact ⟨M, rfl, fun p a b => by rw [if_neg (by omega)]⟩
  | succ cnt' ih =>
      intro j M hj1 hjm hprev hcur
      have hjltm : j < m := by omega
      rw [multiTWED_inner,
        multiTWED_body_cell t1 t2 nu lam n L mi ai M i j hi1 hj1 hmi hai
          (by omega) (by omega)
          (fun p => hprev p j hjltm) (fun p => hcur p (j - 1) (by omega))
          (fun p => hprev p (j - 1) (by omega)),
        exceptOk_bind]
      obtain ⟨M', hM', hf⟩ := ih (j + 1)
        (mmupd M mi j (fun p => cellRef t1 (t2.getD p []) nu lam i j))
        (by omega) (by omega)
        (by
          intro p b hb
          rw [mmupd_ne M _ _ _ p (by intro hc; exact hne hc.1.symm)]
          exact hprev p b hb)
        (by
          intro p b hb
          by_cases hbj : b = j
          · subst hbj
            exact mmupd_self M mi b _ p
          · rw [mmupd_ne M _ _ _ p (by intro hc; exact hbj hc.2)]
            exact hcur p b (by omega))
      refine ⟨M', hM', ?_⟩
      intro p a b
      rw [hf p a b]
      by_cases hB : a = mi ∧ b = j
      · obtain ⟨rfl, rfl⟩ := hB
        rw [if_neg (by omega), mmupd_self, if_pos ⟨rfl, by omega, hjltm⟩]
      · rw [mmupd_ne M _ _ _ p hB]
        by_cases hA : a = mi ∧ j + 1 ≤ b ∧ b < m
        · rw [if_pos hA, if_pos ⟨hA.1, by omega, hA.2.2⟩]
        · rw [if_neg hA, if_neg (by omega)]

theorem multiTWED_outer_char (t1 : List ℚ) (t2 : List (List ℚ)) (nu lam : ℚ)
    (n m L : Nat) (hm1 : 1 ≤ m) (hmn : m ≤ n) (hmL : m ≤ L) :
    ∀ (cnt i : Nat) (M : MMat) (l : Option Nat), 1 ≤ i → 1 ≤ cnt →
    (∀ p b, b < m → M p ((i - 1) % 2) b = cellRef t1 (t2.getD p []) nu lam (i - 1) b) →
    (∀ p, M p (i % 2) 0 = ⊤) →
    ∃ M', multiTWED_outer t1 t2 nu lam n m L M i cnt l =
        .ok (M', some ((i + cnt - 1) % 2)) ∧
      (∀ p b, b < m →
        M' p ((i + cnt - 1) % 2) b = cellRef t1 (t2.getD p []) nu lam (i + cnt - 1) b) ∧
      (∀ p, M' p ((i + cnt) % 2) 0 = ⊤) ∧ (∀ p, M' p 0 0 = ⊤) := by
  intro cnt
  induction cnt with
  | zero => omega
  | succ cnt' ih =>
      intro i M l hi1 _ hprev hcur0
      obtain ⟨M1, hM1, hf1⟩ := multiTWED_inner_char t1 t2 nu lam n m L i (i % 2)
        ((i - 1) % 2) hi1 hmn hmL (by omega) (by omega) (by omega)
        (m - 1) 1 M (by omega) (by omega) hprev
        (by
          intro p b hb
          interval_cases b
          rw [hcur0 p, cellRef_pos_zero t1 (t2.getD p []) nu lam hi1])
      have hM2w : mmwrite n M1 0 0 (fun _ => ⊤) =
          .ok (mmupd M1 0 0 (fun _ => ⊤)) :=
        mmwrite_ok M1 _ (by omega) (by omega)
      have hrow : ∀ p b, b < m →
          mmupd M1 0 0 (fun _ => ⊤) p (i % 2) b =
            cellRef t1 (t2.getD p []) nu lam i b := by
        intro p b hb
        by_cases hb0 : b = 0
        · subst hb0
          rcases Nat.mod_two_eq_zero_or_one i with h2 | h2 <;> rw [h2]
          · rw [mmupd_self, cellRef_pos_zero t1 (t2.getD p []) nu lam hi1]
          · rw [mmupd_ne M1 _ _ _ p (by omega), hf1 p 1 0, if_neg (by omega),
              ← h2, hcur0 p, cellRef_pos_zero t1 (t2.getD p []) nu lam hi1]
        · rw [mmupd_ne M1 _ _ _ p (by omega), hf1 p (i % 2) b,
            if_pos ⟨rfl, by omega, hb⟩]
      have hnext0 : ∀ p, mmupd M1 0 0 (fun _ => ⊤) p ((i + 1) % 2) 0 = ⊤ := by
        intro p
        rcases Nat.mod_two_eq_zero_or_one (i + 1) with h2 | h2 <;> rw [h2]
        · rw [mmupd_self]
        · rw [mmupd_ne M1 _ _ _ p (by omega), hf1 p 1 0, if_neg (by omega)]
          have hieven : (i - 1) % 2 = 1 := by omega
          rw [← hieven, hprev p 0 (by omega),
            cellRef_pos_zero t1 (t2.getD p []) nu lam (by omega)]
      rw [multiTWED_outer]
      simp only [aiVal i hi1]
      rw [hM1, exceptOk_bind, hM2w, exceptOk_bind]
      match cnt', ih with
      | 0, _ =>
          rw [multiTWED_outer]
          have harith : i + 1 - 1 = i := by omega
          rw [harith]
          exact ⟨mmupd M1 0 0 (fun _ => ⊤), rfl, hrow, by
            constructor
            · exact hnext0
            · intro p
              rw [mmupd_self]⟩
      | cnt'' + 1, ih =>
          obtain ⟨M', hM', hrow', hc0', h00'⟩ := ih (i + 1)
            (mmupd M1 0 0 (fun _ => ⊤)) (some (i % 2)) (by omega) (by omega)
            (by simpa using hrow) hnext0
          have ha1 : i + (cnt'' + 1 + 1) - 1 = i + 1 + (cnt'' + 1) - 1 := by omega
          have ha2 : i + (cnt'' + 1 + 1) = i + 1 + (cnt'' + 1) := by omega
          rw [ha1, ha2]
          exact ⟨M', hM', hrow', hc0', h00'⟩

theorem memTWED_calc_short (t1 t2 : List ℚ) (nu lam : ℚ) (n m : Nat)
    (hn : n ≤ 1) : memTWED_calculateCosts t1 t2 nu lam n m =
      .error .unboundLocal := by
  have h0 : n - 1 = 0 := by omega
  rw [memTWED_calculateCosts, h0, memTWED_outer, exceptOk_bind]

theorem multiTWED_calc_short (t1 : List ℚ) (t2 : List (List ℚ)) (nu lam : ℚ)
    (n m numSeries L : Nat) (hn : n ≤ 1) :
    multiTWED_calculateCosts t1 t2 nu lam n m numSeries L =
      .error .unboundLocal := by
  have h0 : n - 1 = 0 := by omega
  rw [multiTWED_calculateCosts, h0, multiTWED_outer, exceptOk_bind]

theorem multiTWED_calculateCosts_char (t1 : List ℚ) (t2 : List (List ℚ))
    (nu lam : ℚ) (n m numSeries L : Nat) (h2n : 2 ≤ n) (hm1 : 1 ≤ m)
    (hmn : m ≤ n) (hmL : m ≤ L) :
    multiTWED_calculateCosts t1 t2 nu lam n m numSeries L =
      .ok ((List.range numSeries).map
        (fun p => cellRef t1 (t2.getD p []) nu lam (n - 1) (m - 1))) := by
  obtain ⟨M', hM', hrow, _, _⟩ := multiTWED_outer_char t1 t2 nu lam n m L hm1
    hmn hmL (n - 1) 1 (multiTWED_init_matrix n) none (by omega) (by omega)
    (by
      intro p b hb
      simp only [Nat.sub_self]
      match b with
      | 0 => rw [multiB_00, cellRef_zero_zero]
      | b + 1 => rw [multiB_0succ, cellRef_zero_succ])
    (by
      intro p
      rw [Nat.one_mod_eq_one.2 (by omega), multiB_10])
  rw [multiTWED_calculateCosts, hM', exceptOk_bind]
  have harith : 1 + (n - 1) - 1 = n - 1 := by omega
  rw [harith] at hrow ⊢
  dsimp only
  rw [if_pos ⟨by omega, by omega⟩]
  refine congrArg Except.ok ?_
  refine List.map_congr_left ?_
  intro p _
  exact hrow p (m - 1) (by omega)

theorem multiTWED_run_char (t1 : List ℚ) (t2 : List (List ℚ)) (lam nu : ℚ)
    (hnu : 0 ≤ nu) (h2D : is2D t2 = true) (h2n : 2 ≤ t1.length)
    (hL : t1.length ≤ t2.headI.length) :
    multiTWED_run t1 t2 lam nu =
      .ok ((List.range t2.length).map
        (fun p => cellRef t1 (t2.getD p []) nu lam (t1.length - 1)
          (t1.length - 1))) := by
  rw [multiTWED_run, multiTWED_init, if_pos hnu, if_pos h2D, exceptOk_bind]
  exact multiTWED_calculateCosts_char t1 t2 nu lam t1.length t1.length
    t2.length t2.headI.length h2n (by omega) le_rfl hL

theorem val_top_add (x : Val) : (⊤ : Val) + x = ⊤ := by
  simp

theorem val_min_top (x : Val) : min (⊤ : Val) x = x :=
  min_eq_right le_top

theorem cellRef_one_one (t1 t2 : List ℚ) (nu lam : ℚ) :
    cellRef t1 t2 nu lam 1 1 =
      ↑(|t1.getD 1 0 - t2.getD 1 0| + |t1.getD 0 0 - t2.getD 0 0| +
        nu * (|arangeT 1 - arangeT 1| + |arangeT 0 - arangeT 0|)) := by
  show cellRef t1 t2 nu lam (0 + 1) (0 + 1) = _
  rw [cellRef_succ_succ t1 t2 nu lam 0 0, cellRef_zero_succ, cellRef_succ_zero,
    cellRef_zero_zero, val_top_add, val_top_add, val_top_add, val_top_add,
    val_top_add, val_top_add, val_min_top, val_min_top, zero_add,
    ← WithTop.coe_add, ← WithTop.coe_add]

/-! ### Concrete cost values, via the characterizations -/

theorem TWED_run_val_0113 (lam : ℚ) : TWED_run [0, 1] [1, 3] lam 0 = .ok 3 := by
  have h := TWED_run_char [0, 1] [1, 3] lam 0 le_rfl rfl (by norm_num)
  rw [h]
  norm_num
  rw [cellRef_one_one]
  norm_num [List.getD, arangeT]

theorem memTWED_run_val_0113 (lam : ℚ) :
    memTWED_run [0, 1] [1, 3] lam 0 = .ok 3 := by
  have h := memTWED_run_char [0, 1] [1, 3] lam 0 le_rfl (by norm_num)
    (by norm_num) (by norm_num)
  rw [h]
  norm_num
  rw [cellRef_one_one]
  norm_num [List.getD, arangeT]

theorem multiTWED_run_val_C2 :
    multiTWED_run [0, 1] [[0, 1], [1, 0]] 0 1 = .ok [0, 2] := by
  have h := multiTWED_run_char [0, 1] [[0, 1], [1, 0]] 0 1 (by norm_num) rfl
    (by norm_num) (by norm_num)
  rw [h]
  norm_num [List.range_succ]
  rw [cellRef_one_one, cellRef_one_one]
  norm_num [List.getD, arangeT]

theorem multiTWED_run_val_C4 :
    multiTWED_run [1, 2] [[1, 2, 3]] 0 0 = .ok [0] := by
  have h := multiTWED_run_char [1, 2] [[1, 2, 3]] 0 0 le_rfl rfl
    (by norm_num) (by norm_num)
  rw [h]
  norm_num [List.range_succ]
  rw [cellRef_one_one]
  norm_num [List.getD, arangeT]

/-! ### Monotonicity of both pairwise sweeps in the deletion penalty -/

theorem mread_eq_ok {h w : Nat} {M : Mat} {i j : Nat} {v : Val} :
    mread h w M i j = .ok v ↔ (i < h ∧ j < w) ∧ v = M i j := by
  unfold mread
  split_ifs with hc
  · constructor
    · intro hh
      cases hh
      exact ⟨hc, rfl⟩
    · rintro ⟨-, rfl⟩
      rfl
  · constructor
    · intro hh
      cases hh
    · rintro ⟨hcc, -⟩
      exact absurd hcc hc

theorem mwrite_eq_ok {h w : Nat} {M N : Mat} {i j : Nat} {v : Val} :
    mwrite h w M i j v = .ok N ↔ (i < h ∧ j < w) ∧ N = mupd M i j v := by
  unfold mwrite
  split_ifs with hc
  · constructor
    · intro hh
      cases hh
      exact ⟨hc, rfl⟩
    · rintro ⟨-, rfl⟩
      rfl
  · constructor
    · intro hh
      cases hh
    · rintro ⟨hcc, -⟩
      exact absurd hcc hc

theorem mupd_mono {M1 M2 : Mat} (h : MatLE M1 M2) {v1 v2 : Val} (hv : v1 ≤ v2)
    (i j : Nat) : MatLE (mupd M1 i j v1) (mupd M2 i j v2) := by
  intro a b
  by_cases hc : a = i ∧ b = j
  · rw [mupd_apply, mupd_apply, if_pos hc, if_pos hc]
    exact hv
  · rw [mupd_ne _ _ _ _ hc, mupd_ne _ _ _ _ hc]
    exact h a b

theorem TWED_body_mono (t1 t2 : List ℚ) (nu : ℚ) {lam1 lam2 : ℚ}
    (hl : lam1 ≤ lam2) (n m : Nat) {M1 M2 : Mat} (hM : MatLE M1 M2)
    (i j : Nat) {N1 N2 : Mat}
    (h1 : TWED_body t1 t2 nu lam1 n m M1 i j = .ok N1)
    (h2 : TWED_body t1 t2 nu lam2 n m M2 i j = .ok N2) : MatLE N1 N2 := by
  rw [TWED_body] at h1 h2
  obtain ⟨a1, ha1, h1⟩ := exceptBind_eq_ok.1 h1
  obtain ⟨b1, hb1, h1⟩ := exceptBind_eq_ok.1 h1
  obtain ⟨c1, hc1, h1⟩ := exceptBind_eq_ok.1 h1
  obtain ⟨a2, ha2, h2⟩ := exceptBind_eq_ok.1 h2
  obtain ⟨b2, hb2, h2⟩ := exceptBind_eq_ok.1 h2
  obtain ⟨c2, hc2, h2⟩ := exceptBind_eq_ok.1 h2
  obtain ⟨-, rfl⟩ := mread_eq_ok.1 ha1
  obtain ⟨-, rfl⟩ := mread_eq_ok.1 hb1
  obtain ⟨-, rfl⟩ := mread_eq_ok.1 hc1
  obtain ⟨-, rfl⟩ := mread_eq_ok.1 ha2
  obtain ⟨-, rfl⟩ := mread_eq_ok.1 hb2
  obtain ⟨-, rfl⟩ := mread_eq_ok.1 hc2
  obtain ⟨-, rfl⟩ := mwrite_eq_ok.1 h1
  obtain ⟨-, rfl⟩ := mwrite_eq_ok.1 h2
  refine mupd_mono hM (min_le_min ?_ (min_le_min ?_ ?_)) i j
  · exact add_le_add (add_le_add (add_le_add (hM _ _) le_rfl) le_rfl)
      (WithTop.coe_le_coe.2 hl)
  · exact add_le_add (add_le_add (add_le_add (hM _ _) le_rfl) le_rfl)
      (WithTop.coe_le_coe.2 hl)
  · exact add_le_add (add_le_add (add_le_add (hM _ _) le_rfl) le_rfl) le_rfl

theorem TWED_inner_mono (t1 t2 : List ℚ) (nu : ℚ) {lam1 lam2 : ℚ}
    (hl : lam1 ≤ lam2) (n m i : Nat) :
    ∀ (cnt j : Nat) {M1 M2 N1 N2 : Mat}, MatLE M1 M2 →
      TWED_inner t1 t2 nu lam1 n m i M1 j cnt = .ok N1 →
      TWED_inner t1 t2 nu lam2 n m i M2 j cnt = .ok N2 → MatLE N1 N2 := by
  intro cnt
  induction cnt with
  | zero =>
      intro j M1 M2 N1 N2 hM h1 h2
      cases h1
      cases h2
      exact hM
  | succ cnt' ih =>
      intro j M1 M2 N1 N2 hM h1 h2
      rw [TWED_inner] at h1 h2
      obtain ⟨P1, hP1, h1⟩ := exceptBind_eq_ok.1 h1
      obtain ⟨P2, hP2, h2⟩ := exceptBind_eq_ok.1 h2
      exact ih (j + 1) (TWED_body_mono t1 t2 nu hl n m hM i j hP1 hP2) h1 h2

theorem TWED_outer_mono (t1 t2 : List ℚ) (nu : ℚ) {lam1 lam2 : ℚ}
    (hl : lam1 ≤ lam2) (n m : Nat) :
    ∀ (cnt i : Nat) {M1 M2 N1 N2 : Mat}, MatLE M1 M2 →
      TWED_outer t1 t2 nu lam1 n m M1 i cnt = .ok N1 →
      TWED_outer t1 t2 nu lam2 n m M2 i cnt = .ok N2 → MatLE N1 N2 := by
  intro cnt
  induction cnt with
  | zero =>
      intro i M1 M2 N1 N2 hM h1 h2
      cases h1
      cases h2
      exact hM
  | succ cnt' ih =>
      intro i M1 M2 N1 N2 hM h1 h2
      rw [TWED_outer] at h1 h2
      obtain ⟨P1, hP1, h1⟩ := exceptBind_eq_ok.1 h1
      obtain ⟨P2, hP2, h2⟩ := exceptBind_eq_ok.1 h2
      exact ih (i + 1) (TWED_inner_mono t1 t2 nu hl n m i (m - 1) 1 hM hP1 hP2)
        h1 h2

theorem TWED_run_mono (t1 t2 : List ℚ) (nu : ℚ) {lam1 lam2 : ℚ}
    (hl : lam1 ≤ lam2) {c1 c2 : Val}
    (h1 : TWED_run t1 t2 lam1 nu = .ok c1)
    (h2 : TWED_run t1 t2 lam2 nu = .ok c2) : c1 ≤ c2 := by
  rw [TWED_run, TWED_init] at h1 h2
  by_cases hnu : 0 ≤ nu
  · rw [if_pos hnu, exceptOk_bind] at h1 h2
    rw [TWED_calculateCosts] at h1 h2
    obtain ⟨B1, hB1, h1⟩ := exceptBind_eq_ok.1 h1
    obtain ⟨B2, hB2, h2⟩ := exceptBind_eq_ok.1 h2
    rw [hB1] at hB2
    injection hB2 with hBeq
    subst hBeq
    obtain ⟨F1, hF1, h1⟩ := exceptBind_eq_ok.1 h1
    obtain ⟨F2, hF2, h2⟩ := exceptBind_eq_ok.1 h2
    have hF := TWED_outer_mono t1 t2 nu hl _ _ _ 1
      (fun a b => le_rfl) hF1 hF2
    obtain ⟨-, rfl⟩ := mread_eq_ok.1 h1
    obtain ⟨-, rfl⟩ := mread_eq_ok.1 h2
    exact hF _ _
  · rw [if_neg hnu, exceptError_bind] at h1
    cases h1

theorem memTWED_body_mono (t1 t2 : List ℚ) (nu : ℚ) {lam1 lam2 : ℚ}
    (hl : lam1 ≤ lam2) (n mi ai : Nat) {M1 M2 : Mat} (hM : MatLE M1 M2)
    (i j : Nat) {N1 N2 : Mat}
    (h1 : memTWED_body t1 t2 nu lam1 n mi ai M1 i j = .ok N1)
    (h2 : memTWED_body t1 t2 nu lam2 n mi ai M2 i j = .ok N2) : MatLE N1 N2 := by
  rw [memTWED_body] at h1 h2
  obtain ⟨a1, ha1, h1⟩ := exceptBind_eq_ok.1 h1
  obtain ⟨b1, hb1, h1⟩ := exceptBind_eq_ok.1 h1
  obtain ⟨c1, hc1, h1⟩ := exceptBind_eq_ok.1 h1
  obtain ⟨a2, ha2, h2⟩ := exceptBind_eq_ok.1 h2
  obtain ⟨b2, hb2, h2⟩ := exceptBind_eq_ok.1 h2
  obtain ⟨c2, hc2, h2⟩ := exceptBind_eq_ok.1 h2
  obtain ⟨-, rfl⟩ := mread_eq_ok.1 ha1
  obtain ⟨-, rfl⟩ := mread_eq_ok.1 hb1
  obtain ⟨-, rfl⟩ := mread_eq_ok.1 hc1
  obtain ⟨-, rfl⟩ := mread_eq_ok.1 ha2
  obtain ⟨-, rfl⟩ := mread_eq_ok.1 hb2
  obtain ⟨-, rfl⟩ := mread_eq_ok.1 hc2
  obtain ⟨-, rfl⟩ := mwrite_eq_ok.1 h1
  obtain ⟨-, rfl⟩ := mwrite_eq_ok.1 h2
  refine mupd_mono hM (min_le_min ?_ (min_le_min ?_ ?_)) mi j
  · exact add_le_add (add_le_add (add_le_add (hM _ _) le_rfl) le_rfl)
      (WithTop.coe_le_coe.2 hl)
  · exact add_le_add (add_le_add (add_le_add (hM _ _) le_rfl) le_rfl)
      (WithTop.coe_le_coe.2 hl)
  · exact add_le_add (add_le_add (add_le_add (hM _ _) le_rfl) le_rfl) le_rfl

theorem memTWED_inner_mono (t1 t2 : List ℚ) (nu : ℚ) {lam1 lam2 : ℚ}
    (hl : lam1 ≤ lam2) (n i mi ai : Nat) :
    ∀ (cnt j : Nat) {M1 M2 N1 N2 : Mat}, MatLE M1 M2 →
      memTWED_inner t1 t2 nu lam1 n i mi ai M1 j cnt = .ok N1 →
      memTWED_inner t1 t2 nu lam2 n i mi ai M2 j cnt = .ok N2 → MatLE N1 N2 := by
  intro cnt
  induction cnt with
  | zero =>
      intro j M1 M2 N1 N2 hM h1 h2
      cases h1
      cases h2
      exact hM
  | succ cnt' ih =>
      intro j M1 M2 N1 N2 hM h1 h2
      rw [memTWED_inner] at h1 h2
      obtain ⟨P1, hP1, h1⟩ := exceptBind_eq_ok.1 h1
      obtain ⟨P2, hP2, h2⟩ := exceptBind_eq_ok.1 h2
      exact ih (j + 1) (memTWED_body_mono t1 t2 nu hl n mi ai hM i j hP1 hP2)
        h1 h2

theorem memTWED_outer_mono (t1 t2 : List ℚ) (nu : ℚ) {lam1 lam2 : ℚ}
    (hl : lam1 ≤ lam2) (n m : Nat) :
    ∀ (cnt i : Nat) (l : Option Nat) {M1 M2 : Mat} {r1 r2 : Mat × Option Nat},
      MatLE M1 M2 →
      memTWED_outer t1 t2 nu lam1 n m M1 i cnt l = .ok r1 →
      memTWED_outer t1 t2 nu lam2 n m M2 i cnt l = .ok r2 →
      MatLE r1.1 r2.1 ∧ r1.2 = r2.2 := by
  intro cnt
  induction cnt with
  | zero =>
      intro i l M1 M2 r1 r2 hM h1 h2
      cases h1
      cases h2
      exact ⟨hM, rfl⟩
  | succ cnt' ih =>
      intro i l M1 M2 r1 r2 hM h1 h2
      rw [memTWED_outer] at h1 h2
      obtain ⟨P1, hP1, h1⟩ := exceptBind_eq_ok.1 h1
      obtain ⟨P2, hP2, h2⟩ := exceptBind_eq_ok.1 h2
      obtain ⟨Q1, hQ1, h1⟩ := exceptBind_eq_ok.1 h1
      obtain ⟨Q2, hQ2, h2⟩ := exceptBind_eq_ok.1 h2
      obtain ⟨-, rfl⟩ := mwrite_eq_ok.1 hQ1
      obtain ⟨-, rfl⟩ := mwrite_eq_ok.1 hQ2
      exact ih (i + 1) _
        (mupd_mono (memTWED_inner_mono t1 t2 nu hl n i _ _ _ 1 hM hP1 hP2)
          le_rfl 0 0) h1 h2

theorem memTWED_run_mono (t1 t2 : List ℚ) (nu : ℚ) {lam1 lam2 : ℚ}
    (hl : lam1 ≤ lam2) {c1 c2 : Val}
    (h1 : memTWED_run t1 t2 lam1 nu = .ok c1)
    (h2 : memTWED_run t1 t2 lam2 nu = .ok c2) : c1 ≤ c2 := by
  rw [memTWED_run, memTWED_init] at h1 h2
  by_cases hnu : 0 ≤ nu
  · rw [if_pos hnu] at h1 h2
    simp only [Bool.false_eq_true, if_false, exceptOk_bind] at h1 h2
    rw [memTWED_calculateCosts] at h1 h2
    obtain ⟨r1, hr1, h1⟩ := exceptBind_eq_ok.1 h1
    obtain ⟨r2, hr2, h2⟩ := exceptBind_eq_ok.1 h2
    obtain ⟨hF, hl2⟩ := memTWED_outer_mono t1 t2 nu hl _ _ _ 1 none
      (fun a b => le_rfl) hr1 hr2
    rcases r1 with ⟨F1, l1⟩
    rcases r2 with ⟨F2, l2⟩
    dsimp only at h1 h2 hF hl2
    subst hl2
    cases l1 with
    | none => cases h1
    | some mi =>
        obtain ⟨-, rfl⟩ := mread_eq_ok.1 h1
        obtain ⟨-, rfl⟩ := mread_eq_ok.1 h2
        exact hF _ _
  · rw [if_neg hnu, exceptError_bind] at h1
    cases h1

/-! ### Symmetry of the reference recurrence -/

theorem cellRef_symm (t1 t2 : List ℚ) (nu lam : ℚ) :
    ∀ i j, cellRef t1 t2 nu lam i j = cellRef t2 t1 nu lam j i := by
  suffices h : ∀ s i j, i + j = s →
      cellRef t1 t2 nu lam i j = cellRef t2 t1 nu lam j i by
    intro i j
    exact h (i + j) i j rfl
  intro s
  induction s using Nat.strong_induction_on with
  | _ s ih =>
      intro i j hs
      match i, j with
      | 0, 0 => rw [cellRef_zero_zero, cellRef_zero_zero]
      | 0, j + 1 => rw [cellRef_zero_succ, cellRef_succ_zero]
      | i + 1, 0 => rw [cellRef_succ_zero, cellRef_zero_succ]
      | i + 1, j + 1 =>
          rw [cellRef_succ_succ, cellRef_succ_succ,
            ih (i + (j + 1)) (by omega) i (j + 1) rfl,
            ih (i + 1 + j) (by omega) (i + 1) j rfl,
            ih (i + j) (by omega) i j rfl, min_left_comm,
            abs_sub_comm (t1.getD (i + 1) 0) (t2.getD (j + 1) 0),
            abs_sub_comm (t1.getD i 0) (t2.getD j 0),
            abs_sub_comm (arangeT (i + 1)) (arangeT (j + 1)),
            abs_sub_comm (arangeT i) (arangeT j)]

/-! ### The claims -/

/-- C1 (counterexample): the optimized and naive engines do not agree for
every pair of series with `n ≥ 1`, `m ≥ 1`: at `A = [1,2,3]`, `B = [1,2]`
(`λ = 0`, `ν = 0`) the rolling-buffer engine returns a cost while the naive
engine fails with an index error in `_init_matrix`. -/
theorem C1_counterexample :
    memTWED_run [1, 2, 3] [1, 2] 0 0 ≠ TWED_run [1, 2, 3] [1, 2] 0 0 := by
  decide

/-- C1 (amended): for equal-length series of length at least 2 and `ν ≥ 0`,
the rolling-buffer engine `memTWED` returns exactly the same cost as the
naive full-matrix engine `TWED`: the two-row buffer does not change the
numeric result. -/
theorem C1_equiv_equal_lengths (t1 t2 : List ℚ) (lam nu : ℚ) (hnu : 0 ≤ nu)
    (hlen : t1.length = t2.length) (h2 : 2 ≤ t1.length) :
    memTWED_run t1 t2 lam nu = TWED_run t1 t2 lam nu := by
  rw [TWED_run_char t1 t2 lam nu hnu hlen (by omega),
    memTWED_run_char t1 t2 lam nu hnu h2 (by omega) (by omega), hlen]

/-- C1 (witness): the amended equivalence at the concrete pair
`A = [0,1]`, `B = [1,3]`, `λ = 0`, `ν = 0`. -/
theorem C1_witness :
    (0 : ℚ) ≤ 0 ∧ ([0, 1] : List ℚ).length = ([1, 3] : List ℚ).length ∧
    2 ≤ ([0, 1] : List ℚ).length ∧
    memTWED_run [0, 1] [1, 3] 0 0 = TWED_run [0, 1] [1, 3] 0 0 :=
  ⟨le_refl 0, rfl, by norm_num,
    C1_equiv_equal_lengths [0, 1] [1, 3] 0 0 (le_refl 0) rfl (by norm_num)⟩

/-- C3: the non-strict pairwise call with `n < m` does signal the
performance warning at construction, but the computation does not proceed to
a valid cost: the buffer is allocated with width `n` (the docstring says
`(2, m)`), so the sweep goes out of bounds.  At `A = [0,1]`, `B = [0,1,2]`
construction succeeds with the warning and the sweep raises an index
error. -/
theorem C3_warning_then_crash :
    memTWED_init [0, 1] [0, 1, 2] 0 0 false = .ok (2, 3, true) ∧
    memTWED_run [0, 1] [0, 1, 2] 0 0 = .error .indexError := by
  constructor
  · decide
  · decide

/-- C4 (counterexample): batch construction does not fail when a target
series' length differs from `len(A)`: `multiTWED([1,2], [[1,2,3]])` is
accepted (the only shape assert is two-dimensionality), and the batch call
then completes, processing the target truncated to the first two samples
rather than at its full length. -/
theorem C4_counterexample :
    multiTWED_init [1, 2] [[1, 2, 3]] 0 0 = .ok (2, 2, 1) ∧
    multiTWED_run [1, 2] [[1, 2, 3]] 0 0 = .ok [0] :=
  ⟨rfl, multiTWED_run_val_C4⟩

/-- C4 (amended): with `ν ≥ 0`, batch construction fails (shape error)
exactly when the batch is not a two-dimensional rectangular array; any
rectangular batch is accepted, a row length equal to `len(A)` is not
required. -/
theorem C4_construction_shape_only (t1 : List ℚ) (t2 : List (List ℚ))
    (lam nu : ℚ) (hnu : 0 ≤ nu) :
    (multiTWED_init t1 t2 lam nu = .error .shapeError ↔ is2D t2 = false) ∧
    (is2D t2 = true →
      multiTWED_init t1 t2 lam nu = .ok (t1.length, t1.length, t2.length)) := by
  unfold multiTWED_init
  rw [if_pos hnu]
  constructor
  · cases h : is2D t2 <;> simp [h]
  · intro h
    rw [if_pos h]

/-- C4 (witness): the amended construction rule at a rectangular batch of
row length equal to `len(A)`. -/
theorem C4_witness :
    (0 : ℚ) ≤ 0 ∧
    (multiTWED_init [1, 2] [[1, 2], [2, 1]] 0 0 = .error .shapeError ↔
      is2D [[1, 2], [2, 1]] = false) ∧
    (is2D [[1, 2], [2, 1]] = true →
      multiTWED_init [1, 2] [[1, 2], [2, 1]] 0 0 = .ok (2, 2, 2)) :=
  ⟨le_refl 0,
    (C4_construction_shape_only [1, 2] [[1, 2], [2, 1]] 0 0 (le_refl 0)).1,
    (C4_construction_shape_only [1, 2] [[1, 2], [2, 1]] 0 0 (le_refl 0)).2⟩

/-- C5: `TWED._init_matrix` does not produce the claimed all-`∞` boundary
when `n ≠ m`: for `n = 1`, `m = 2` the cell `(0, 1)` of row 0 is left at `0`
instead of `+∞` (the init loop runs only `n` times), and for `n = 2`,
`m = 1` initialization crashes with an index error. -/
theorem C5_init_matrix_bug :
    (TWED_init_matrix 1 2).map (fun M => M 0 1) = .ok (0 : Val) ∧
    TWED_init_matrix 2 1 = .error .indexError :=
  ⟨rfl, rfl⟩

/-- C6: for each of the three engines, construction fails with the
invalid-parameter error exactly when `ν < 0`; the check is the first
statement of every constructor, so with `ν ≥ 0` no such error is ever
raised and with `ν < 0` the failure happens before any DP work. -/
theorem C6_nu_validation (t1 t2 : List ℚ) (t2b : List (List ℚ)) (lam nu : ℚ)
    (b : Bool) :
    (TWED_init t1 t2 lam nu = .error .invalidParam ↔ nu < 0) ∧
    (memTWED_init t1 t2 lam nu b = .error .invalidParam ↔ nu < 0) ∧
    (multiTWED_init t1 t2b lam nu = .error .invalidParam ↔ nu < 0) := by
  by_cases hnu : 0 ≤ nu
  · have hn : ¬ nu < 0 := not_lt.2 hnu
    refine ⟨?_, ?_, ?_⟩
    · rw [TWED_init, if_pos hnu]
      simp [hn]
    · rw [memTWED_init, if_pos hnu]
      split_ifs <;> simp [hn]
    · rw [multiTWED_init, if_pos hnu]
      split_ifs <;> simp [hn]
  · have hn : nu < 0 := not_le.1 hnu
    refine ⟨?_, ?_, ?_⟩
    · rw [TWED_init, if_neg hnu]
      simp [hn]
    · rw [memTWED_init, if_neg hnu]
      simp [hn]
    · rw [multiTWED_init, if_neg hnu]
      simp [hn]

/-- C7: the rolling-buffer pairwise engine is symmetric for equal-length
series: swapping reference and target does not change the result (for any
`λ` and `ν`; with `ν < 0` both directions fail identically, with length 1
both raise the same unbound-local failure, otherwise both return the same
cost). -/
theorem C7_symmetry (t1 t2 : List ℚ) (lam nu : ℚ)
    (hlen : t1.length = t2.length) :
    memTWED_run t1 t2 lam nu = memTWED_run t2 t1 lam nu := by
  by_cases hnu : 0 ≤ nu
  · by_cases h2 : 2 ≤ t1.length
    · rw [memTWED_run_char t1 t2 lam nu hnu h2 (by omega) (by omega),
        memTWED_run_char t2 t1 lam nu hnu (by omega) (by omega) (by omega),
        cellRef_symm t1 t2 nu lam]
    · rw [memTWED_run, memTWED_run, memTWED_init, memTWED_init, if_pos hnu,
        if_pos hnu]
      simp only [Bool.false_eq_true, if_false, exceptOk_bind]
      rw [memTWED_calc_short t1 t2 nu lam _ _ (by omega),
        memTWED_calc_short t2 t1 nu lam _ _ (by omega)]
  · rw [memTWED_run, memTWED_run, memTWED_init, memTWED_init, if_neg hnu,
      if_neg hnu]
    simp

/-- C7 (witness): symmetry at `A = [1,2]`, `B = [3,4]`, `λ = 0`, `ν = 1`. -/
theorem C7_witness :
    ([1, 2] : List ℚ).length = ([3, 4] : List ℚ).length ∧
    memTWED_run [1, 2] [3, 4] 0 1 = memTWED_run [3, 4] [1, 2] 0 1 :=
  ⟨rfl, C7_symmetry [1, 2] [3, 4] 0 1 rfl⟩

/-- C8: for fixed series and fixed `ν`, both pairwise engines are monotone
non-decreasing in the deletion penalty `λ`: whenever both runs return costs,
the cost at the smaller `λ` is at most the cost at the larger `λ`. -/
theorem C8_lambda_monotone (t1 t2 : List ℚ) (nu lam1 lam2 : ℚ)
    (hl : lam1 ≤ lam2) :
    (∀ c1 c2, TWED_run t1 t2 lam1 nu = .ok c1 →
      TWED_run t1 t2 lam2 nu = .ok c2 → c1 ≤ c2) ∧
    (∀ c1 c2, memTWED_run t1 t2 lam1 nu = .ok c1 →
      memTWED_run t1 t2 lam2 nu = .ok c2 → c1 ≤ c2) :=
  ⟨fun _ _ h1 h2 => TWED_run_mono t1 t2 nu hl h1 h2,
   fun _ _ h1 h2 => memTWED_run_mono t1 t2 nu hl h1 h2⟩

/-- C8 (witness): monotonicity applied at `A = [0,1]`, `B = [1,3]`, `ν = 0`,
`λ` raised from `0` to `1`; both engines return cost `3` at both penalties
and `3 ≤ 3`. -/
theorem C8_witness : (0 : ℚ) ≤ 1 ∧ (3 : Val) ≤ 3 ∧ (3 : Val) ≤ 3 :=
  ⟨by norm_num,
   (C8_lambda_monotone [0, 1] [1, 3] 0 0 1 (by norm_num)).1 3 3
     (TWED_run_val_0113 0) (TWED_run_val_0113 1),
   (C8_lambda_monotone [0, 1] [1, 3] 0 0 1 (by norm_num)).2 3 3
     (memTWED_run_val_0113 0) (memTWED_run_val_0113 1)⟩

theorem memTWED_body_shape {t1 t2 : List ℚ} {nu lam : ℚ} {n mi ai : Nat}
    {M M1 : Mat} {i j : Nat}
    (h : memTWED_body t1 t2 nu lam n mi ai M i j = .ok M1) :
    ∃ v, M1 = mupd M mi j v := by
  rw [memTWED_body] at h
  obtain ⟨a1, ha1, h⟩ := exceptBind_eq_ok.1 h
  obtain ⟨a2, ha2, h⟩ := exceptBind_eq_ok.1 h
  obtain ⟨a3, ha3, h⟩ := exceptBind_eq_ok.1 h
  obtain ⟨-, rfl⟩ := mwrite_eq_ok.1 h
  exact ⟨_, rfl⟩

theorem memTWED_inner_frozen (t1 t2 : List ℚ) (nu lam : ℚ) (n i mi ai : Nat) :
    ∀ (cnt j : Nat) {M M' : Mat}, 1 ≤ j →
      memTWED_inner t1 t2 nu lam n i mi ai M j cnt = .ok M' →
      ∀ r, M' r 0 = M r 0 := by
  intro cnt
  induction cnt with
  | zero =>
      intro j M M' _ h r
      cases h
      rfl
  | succ cnt' ih =>
      intro j M M' hj h r
      rw [memTWED_inner] at h
      obtain ⟨M1, hbody, hrest⟩ := exceptBind_eq_ok.1 h
      obtain ⟨v, rfl⟩ := memTWED_body_shape hbody
      rw [ih (j + 1) (by omega) hrest r, mupd_ne M _ _ _ (by omega)]

/-- C9: sentinel-column invariant of the rolling-buffer sweep.  (1) at the
start of every outer iteration `i = t + 1` (the state after `t` iterations),
column 0 of the buffer row about to be written is `+∞`; (2) during the inner
loop of iteration `i = 1` (any prefix of it), the origin cell `(0,0)` of the
previous row still holds `0`; (3) after each completed outer iteration the
origin cell `(0,0)` is `+∞` (re-established by the `for…else` clause). -/
theorem C9_sentinel_invariant (t1 t2 : List ℚ) (nu lam : ℚ)
    (hm1 : 1 ≤ t2.length) (hmn : t2.length ≤ t1.length) :
    (∀ t, t ≤ t1.length - 2 →
      ∃ r, memTWED_outer t1 t2 nu lam t1.length t2.length
          (memTWED_init_matrix t1.length) 1 t none = .ok r ∧
        r.1 ((t + 1) % 2) 0 = ⊤) ∧
    (∀ cnt M', memTWED_inner t1 t2 nu lam t1.length 1 1 0
        (memTWED_init_matrix t1.length) 1 cnt = .ok M' → M' 0 0 = 0) ∧
    (∀ t, 1 ≤ t → ∀ r, memTWED_outer t1 t2 nu lam t1.length t2.length
        (memTWED_init_matrix t1.length) 1 t none = .ok r → r.1 0 0 = ⊤) := by
  have hprev : ∀ b, b < t2.length →
      memTWED_init_matrix t1.length ((1 - 1) % 2) b =
        cellRef t1 t2 nu lam (1 - 1) b := by
    intro b _
    simp only [Nat.sub_self, Nat.zero_mod]
    match b with
    | 0 => rw [memB_00, cellRef_zero_zero]
    | b + 1 => rw [memB_0succ, cellRef_zero_succ]
  have hcur0 : memTWED_init_matrix t1.length (1 % 2) 0 = ⊤ := by
    rw [Nat.one_mod_eq_one.2 (by omega), memB_10]
  refine ⟨?_, ?_, ?_⟩
  · intro t _
    match t with
    | 0 =>
        refine ⟨(memTWED_init_matrix t1.length, none), rfl, ?_⟩
        exact memB_10 t1.length
    | t + 1 =>
        obtain ⟨M', hM', _, hc0, _⟩ := memTWED_outer_char t1 t2 nu lam
          t1.length t2.length hm1 hmn (t + 1) 1
          (memTWED_init_matrix t1.length) none (by omega) (by omega)
          hprev hcur0
        refine ⟨(M', some ((1 + (t + 1) - 1) % 2)), hM', ?_⟩
        have harith : t + 1 + 1 = 1 + (t + 1) := by omega
        rw [harith]
        exact hc0
  · intro cnt M' h
    rw [memTWED_inner_frozen t1 t2 nu lam t1.length 1 1 0 cnt 1 le_rfl h 0]
    exact memB_00 t1.length
  · intro t ht r h
    match t, ht with
    | t + 1, _ =>
        obtain ⟨M', hM', _, _, h00⟩ := memTWED_outer_char t1 t2 nu lam
          t1.length t2.length hm1 hmn (t + 1) 1
          (memTWED_init_matrix t1.length) none (by omega) (by omega)
          hprev hcur0
        rw [hM'] at h
        injection h with hr
        rw [← hr]
        exact h00

/-- C9 (witness): the sentinel invariant instantiated at `A = [0,0,0]`,
`B = [0,0]`, `λ = 0`, `ν = 0`. -/
theorem C9_witness :
    (1 ≤ ([0, 0] : List ℚ).length) ∧
    (∀ t, t ≤ ([0, 0, 0] : List ℚ).length - 2 →
      ∃ r, memTWED_outer [0, 0, 0] [0, 0] 0 0 ([0, 0, 0] : List ℚ).length
          ([0, 0] : List ℚ).length
          (memTWED_init_matrix ([0, 0, 0] : List ℚ).length) 1 t none = .ok r ∧
        r.1 ((t + 1) % 2) 0 = ⊤) :=
  ⟨by norm_num,
    (C9_sentinel_invariant [0, 0, 0] [0, 0] 0 0 (by norm_num) (by norm_num)).1⟩

theorem range_map_getD {k p : Nat} (f : Nat → Val) (hp : p < k) :
    ((List.range k).map f).getD p 0 = f p := by
  rw [List.getD_eq_getElem?_getD, List.getElem?_map, List.getElem?_range hp]
  rfl

/-- C2: whenever the batch engine returns an output vector `v` for reference
`A` and a batch whose target series all have length `len(A)`, the `p`-th
entry of `v` equals the cost the pairwise rolling-buffer engine returns for
`(A, batch[p])`, for every index `p`. -/
theorem C2_batch_matches_pairwise (t1 : List ℚ) (batch : List (List ℚ))
    (lam nu : ℚ) (hlen : ∀ B ∈ batch, B.length = t1.length) (v : List Val)
    (hok : multiTWED_run t1 batch lam nu = .ok v) (p : Nat)
    (hp : p < batch.length) :
    memTWED_run t1 (batch.getD p []) lam nu = .ok (v.getD p 0) := by
  by_cases hnu : 0 ≤ nu
  case neg =>
    rw [multiTWED_run, multiTWED_init, if_neg hnu, exceptError_bind] at hok
    cases hok
  have h2D : is2D batch = true := by
    cases h : is2D batch
    · rw [multiTWED_run, multiTWED_init, if_pos hnu, h] at hok
      simp only [Bool.false_eq_true, if_false, exceptError_bind] at hok
      cases hok
    · rfl
  obtain ⟨r, rs, rfl⟩ : ∃ r rs, batch = r :: rs := by
    cases batch with
    | nil => simp [is2D] at h2D
    | cons r rs => exact ⟨r, rs, rfl⟩
  have hn2 : 2 ≤ t1.length := by
    by_contra hcon
    rw [multiTWED_run, multiTWED_init, if_pos hnu, if_pos h2D, exceptOk_bind,
      multiTWED_calc_short _ _ _ _ _ _ _ _ (by omega)] at hok
    cases hok
  have hLr : (r :: rs).headI.length = t1.length := by
    rw [List.headI_cons]
    exact hlen r (List.mem_cons_self r rs)
  rw [multiTWED_run_char t1 (r :: rs) lam nu hnu h2D hn2
    (le_of_eq hLr.symm)] at hok
  injection hok with hv
  have hplen : ((r :: rs).getD p []).length = t1.length := by
    refine hlen _ ?_
    rw [List.getD_eq_getElem (r :: rs) [] hp]
    exact List.getElem_mem hp
  rw [memTWED_run_char t1 _ lam nu hnu hn2 (by omega) (by omega), hplen, ← hv,
    range_map_getD _ hp]

/-- C2 (witness): the batch/pairwise agreement at `A = [0,1]`,
batch `[[0,1],[1,0]]`, `λ = 0`, `ν = 1`, for both batch indices. -/
theorem C2_witness :
    (∀ B ∈ ([[0, 1], [1, 0]] : List (List ℚ)), B.length = ([0, 1] : List ℚ).length) ∧
    multiTWED_run [0, 1] [[0, 1], [1, 0]] 0 1 = .ok [0, 2] ∧
    memTWED_run [0, 1] [0, 1] 0 1 = .ok 0 ∧
    memTWED_run [0, 1] [1, 0] 0 1 = .ok 2 :=
  ⟨by decide, multiTWED_run_val_C2,
    C2_batch_matches_pairwise [0, 1] [[0, 1], [1, 0]] 0 1 (by decide) [0, 2]
      multiTWED_run_val_C2 0 (by decide),
    C2_batch_matches_pairwise [0, 1] [[0, 1], [1, 0]] 0 1 (by decide) [0, 2]
      multiTWED_run_val_C2 1 (by decide)⟩

/-- C10 (counterexample): at length-1 inputs `A = [5]`, `B = [7]` the
rolling-buffer engine does not produce a defined cost: the outer loop never
runs, so reading the loop variable `mi` fails (Python
`UnboundLocalError`). -/
theorem C10_counterexample :
    memTWED_run [5] [7] 0 0 = .error .unboundLocal := by
  decide

/-- C10 (amended): for length-1 inputs the naive engine returns the
boundary-sentinel value `0`, while both rolling-buffer engines (`memTWED`
and `multiTWED`) fail with an unbound-local error because their outer loop
never assigns the row index it reads afterwards. -/
theorem C10_length_one_behavior (a b lam nu : ℚ) (hnu : 0 ≤ nu) :
    TWED_run [a] [b] lam nu = .ok 0 ∧
    memTWED_run [a] [b] lam nu = .error .unboundLocal ∧
    multiTWED_run [a] [[b]] lam nu = .error .unboundLocal := by
  refine ⟨?_, ?_, ?_⟩
  · rw [TWED_run, TWED_init, if_pos hnu, exceptOk_bind]
    show TWED_calculateCosts [a] [b] nu lam 1 1 = .ok 0
    simp [TWED_calculateCosts, TWED_init_matrix, TWED_initLoop, TWED_outer,
      mwrite, mread, mupd]
  · rw [memTWED_run, memTWED_init, if_pos hnu]
    simp only [Bool.false_eq_true, if_false, exceptOk_bind]
    exact memTWED_calc_short [a] [b] nu lam _ _ (by norm_num)
  · rw [multiTWED_run, multiTWED_init, if_pos hnu,
      if_pos (show is2D [[b]] = true from rfl), exceptOk_bind]
    exact multiTWED_calc_short [a] [[b]] nu lam _ _ _ _ (by norm_num)

/-- C10 (witness): the length-1 behavior at the spec's example
`A = [5]`, `B = [7]` with `λ = 0`, `ν = 0`. -/
theorem C10_witness :
    (0 : ℚ) ≤ 0 ∧ TWED_run [5] [7] 0 0 = .ok 0 ∧
    memTWED_run [5] [7] 0 0 = .error .unboundLocal ∧
    multiTWED_run [5] [[7]] 0 0 = .error .unboundLocal :=
  ⟨le_refl 0, (C10_length_one_behavior 5 7 0 0 (le_refl 0)).1,
   (C10_length_one_behavior 5 7 0 0 (le_refl 0)).2.1,
   (C10_length_one_behavior 5 7 0 0 (le_refl 0)).2.2⟩
